import Mathlib

/-!
Verification of the transaction-analytics core of `src/transactions.py`
(the Domus backend): `calculate_stats`, `detect_recurring_transactions`,
`detect_anomalies` and `_tx_category`.

Modelling conventions.
* Python floats are modelled as exact rationals (`ℚ`).  `round(x, n)` on
  binary floats rounds half-to-even on the *binary* value; we model it as
  rounding to the nearest multiple of `10^-n` (`round2`, `round1`).  No
  theorem or concrete evaluation below exercises an exact midpoint, where
  the two could differ.
* A transaction dict is modelled by `Tx`.  The `amount` value is either a
  parsable number (`AmtVal.num`), an absent key (`.missing`, which Python's
  `tx.get("amount", 0)` turns into `0`), or a value on which `float(...)`
  raises `TypeError`/`ValueError` (`.bad`).  The `date` field is modelled by
  its `str(tx.get("date", ""))` image, with absence as `""`.
* `personal_finance_category` is `Option (Option String)`: `none` for a
  missing/`None`/non-dict value, `some none` for a dict whose `"primary"`
  key is missing, `some (some p)` for a dict carrying primary `p`.
* Strings are treated as ASCII for `lower`/`strip`/`title`/`\d`/`\s`
  purposes; the regex `[\s\d#*]+$` and `str.strip` are modelled on the
  ASCII whitespace/digit classes.
* Raising code is modelled in `Except Unit`; `.error ()` is an uncaught
  exception escaping the function.
* Python's `list.sort`/`sorted` is a stable sort; stable sorting by a key
  is extensionally unique, so it is modelled by the stable
  `List.insertionSort` (`pySortDesc`/`pySortAsc`).
-/

deriving instance DecidableEq for Except

namespace Domus

/-- Possible states of the `amount` value of a transaction dict, as seen
through `float(tx.get("amount", 0))`. -/
inductive AmtVal where
  | missing : AmtVal
  | num (q : ℚ) : AmtVal
  | bad : AmtVal
deriving DecidableEq

/-- The legacy `category` value: absent/`None`/falsy, a bare string, or a
list of strings. -/
inductive CatVal where
  | cnone : CatVal
  | cstr (s : String) : CatVal
  | clist (l : List String) : CatVal
deriving DecidableEq

/-- A transaction record (the fields the analytics core reads). -/
structure Tx where
  transaction_id : Option String
  amount : AmtVal
  date : String
  merchant_name : Option String
  name : Option String
  category : CatVal
  personal_finance_category : Option (Option String)
deriving DecidableEq

/-- Semantics of `float(tx.get("amount", 0))`: `none` means the call
raises (`TypeError`/`ValueError`). A missing key defaults to `0`. -/
def parseAmount : AmtVal → Option ℚ
  | .missing => some 0
  | .num q => some q
  | .bad => none

/-- Truthiness filter for an optional string: Python's `or` chain skips
`None` and `""`. -/
def truthyStr : Option String → Option String
  | some s => if s = "" then none else some s
  | none => none

/-- Python's `a or b` on two optional strings. -/
def orTruthy (a b : Option String) : Option String :=
  match truthyStr a with
  | some s => some s
  | none => truthyStr b

/-- Value of `tx.get("merchant_name") or tx.get("name") or ""`. -/
def displayRaw (tx : Tx) : String := (orTruthy tx.merchant_name tx.name).getD ""

/-- Value of `str(tx.get("merchant_name") or tx.get("name") or "Unknown")`. -/
def merchantOf (tx : Tx) : String := (orTruthy tx.merchant_name tx.name).getD "Unknown"

/-- Python's `\s` class (ASCII part): the whitespace stripped by `strip()`. -/
def pySpace (c : Char) : Bool := c.isWhitespace || c = '\x0b' || c = '\x0c'

/-- Python's `str.strip()`. -/
def pyStrip (s : String) : String :=
  ⟨((s.data.dropWhile pySpace).reverse.dropWhile pySpace).reverse⟩

/-- The character class of the normalisation regex `[\s\d#*]+$`. -/
def normStripChar (c : Char) : Bool := pySpace c || c.isDigit || c = '#' || c = '*'

/-- `re.sub(r'[\s\d#*]+$', '', s)`: remove the longest trailing run of
whitespace/digits/`#`/`*`. -/
def stripTrailingNorm (s : String) : String :=
  ⟨(s.data.reverse.dropWhile normStripChar).reverse⟩

/-- Python's `str.lower()` (ASCII). -/
def pyLower (s : String) : String := ⟨s.data.map Char.toLower⟩

/-- Merchant-name normalisation of `detect_recurring_transactions`
line 452-454 applied to a display string: `strip`, `lower`,
drop trailing `[\s\d#*]+`, `strip`. -/
def merchantKeyOf (m : String) : String := pyStrip (stripTrailingNorm (pyLower (pyStrip m)))

/-- The grouping key of a transaction in `detect_recurring_transactions`. -/
def txKey (tx : Tx) : String := merchantKeyOf (displayRaw tx)

/-- Python's `str.title()` (ASCII): a letter is uppercased when the
preceding character is not a letter, lowercased otherwise. -/
def pyTitleAux : Bool → List Char → List Char
  | _, [] => []
  | prev, c :: rest => (if prev then c.toLower else c.toUpper) :: pyTitleAux c.isAlpha rest

/-- Python's `str.title()` on a string. -/
def pyTitle (s : String) : String := ⟨pyTitleAux false s.data⟩

/-- The truthy `personal_finance_category["primary"]` value, when
`personal_finance_category` is a truthy dict holding one
(`pfc and isinstance(pfc, dict) and pfc.get("primary")`). -/
def pfcPrimary (tx : Tx) : Option String :=
  match tx.personal_finance_category with
  | some (some p) => if p = "" then none else some p
  | _ => none

/-- Truthiness of a legacy `category` value. -/
def catTruthy : CatVal → Bool
  | .cnone => false
  | .cstr s => !(s == "")
  | .clist l => !l.isEmpty

/-- `str(raw_cat)` for the values on which the code can reach it (bare
strings; the list rendering is never reached on a truthy list). -/
def catStr : CatVal → String
  | .cnone => "None"
  | .cstr s => s
  | .clist _ => "[]"

/-- Category resolution inside `calculate_stats` (lines 409-419). -/
def statsCategory (tx : Tx) : String :=
  match pfcPrimary tx with
  | some p => pyTitle ((p.replace "_" " "))
  | none =>
    match tx.category with
    | .clist (c :: _) => c
    | raw => if catTruthy raw then catStr raw else "Other"

/-- Category resolution inside `detect_recurring_transactions`
(lines 473-480), applied to the group's first transaction. -/
def recurringCategory (tx : Tx) : String :=
  match pfcPrimary tx with
  | some p => pyTitle ((p.replace "_" " "))
  | none =>
    match tx.category with
    | .clist (c :: _) => c
    | raw => if catTruthy raw then catStr raw else "Other"

/-- Category resolution inside `detect_anomalies` (lines 504-511). -/
def anomalyCategory (tx : Tx) : String :=
  match pfcPrimary tx with
  | some p => pyTitle ((p.replace "_" " "))
  | none =>
    match tx.category with
    | .clist (c :: _) => c
    | raw => if catTruthy raw then catStr raw else "Other"

/-- The helper `_tx_category` (lines 565-573). -/
def tx_category (tx : Tx) : String :=
  match pfcPrimary tx with
  | some p => pyTitle ((p.replace "_" " "))
  | none =>
    match tx.category with
    | .clist (c :: _) => c
    | raw => if catTruthy raw then catStr raw else "Other"

/-- Claim C9's spec-side description of the category rule, written from the
claim's words (not from the source): `personal_finance_category.primary`
with underscores replaced by spaces and title-cased when that field is a
dict with a truthy primary; otherwise the first element of a non-empty
legacy category list; otherwise the string form of a truthy bare category
value; otherwise `"Other"`. -/
def specCategory (tx : Tx) : String :=
  match pfcPrimary tx with
  | some p => pyTitle ((p.replace "_" " "))
  | none =>
    match tx.category with
    | .clist (c :: _) => c
    | .cstr s => if s = "" then "Other" else s
    | _ => "Other"

/-- Python's `round(x, 2)` modelled on exact rationals. -/
def round2 (q : ℚ) : ℚ := (round (q * 100) : ℤ) / 100

/-- Python's `round(x, 1)` modelled on exact rationals. -/
def round1 (q : ℚ) : ℚ := (round (q * 10) : ℤ) / 10

/-- Rendering of `f"{q:.2f}"`. -/
def fmt2 (q : ℚ) : String :=
  let c : ℤ := round (q * 100)
  let sgn := if c < 0 then "-" else ""
  let n := c.natAbs
  sgn ++ toString (n / 100) ++ "." ++ (if n % 100 < 10 then "0" else "") ++ toString (n % 100)

/-- Rendering of `str(round(q, 1))` for the one-decimal ratio in the flag
string. -/
def fmt1 (q : ℚ) : String :=
  let c : ℤ := round (q * 10)
  let sgn := if c < 0 then "-" else ""
  let n := c.natAbs
  sgn ++ toString (n / 10) ++ "." ++ toString (n % 10)

/-- Python's `sorted(..., key=f, reverse=True)` / `.sort(key=f, reverse=True)`:
the unique stable descending sort by key. -/
def pySortDesc {α β : Type} [LinearOrder β] (f : α → β) (l : List α) : List α :=
  List.insertionSort (fun a b => f b ≤ f a) l

/-- Python's `sorted(..., key=f)`: the unique stable ascending sort by key. -/
def pySortAsc {α β : Type} [LinearOrder β] (f : α → β) (l : List α) : List α :=
  List.insertionSort (fun a b => f a ≤ f b) l

/-- Appending a value under a key in an insertion-ordered dict of lists
(`defaultdict(list)`'s `d[k].append(x)`). -/
def addToGroup {α : Type} : List (String × List α) → String → α → List (String × List α)
  | [], k, x => [(k, [x])]
  | (k2, l) :: rest, k, x =>
      if k2 = k then (k2, l ++ [x]) :: rest else (k2, l) :: addToGroup rest k x

/-- The grouping loops of both detectors: fold the records into an
insertion-ordered dict of lists, keeping only keys with `keep`. -/
def groupFold {α : Type} (keyOf : α → String) (keep : String → Bool) :
    List α → List (String × List α) → List (String × List α)
  | [], gs => gs
  | x :: rest, gs =>
      groupFold keyOf keep rest (if keep (keyOf x) then addToGroup gs (keyOf x) x else gs)

/-- Append a string to a list if not already present (set-insert keeping
first-seen order). -/
def insertNew (l : List String) (s : String) : List String := if s ∈ l then l else l ++ [s]

/-- First occurrences of each string, in order (the key sequence of an
insertion-ordered dict). -/
def firstKeys (s : List String) : List String := s.foldl insertNew []

/-- The `YYYY-MM` bucket of a transaction: the first 7 characters of the
date string when it has at least 7 (`date_str[:7]`), else nothing. -/
def monthOf (tx : Tx) : Option String :=
  if 7 ≤ tx.date.length then some (tx.date.take 7) else none

/-- The `months` set of a recurring group, as a duplicate-free list in
first-seen order (only its size and its sorted image are consumed). -/
def monthsOf (g : List Tx) : List String := (g.filterMap monthOf).foldl insertNew []

/-- Python's `sum` over a list of floats. -/
def pySum (l : List ℚ) : ℚ := l.sum

/-- `sum(l) / len(l)`. -/
def pyAvg (l : List ℚ) : ℚ := pySum l / (l.length : ℚ)

/-- Python's `max` over a non-empty list (left-biased; `0` on `[]`,
which the code never reaches). -/
def maxList : List ℚ → ℚ
  | [] => 0
  | [a] => a
  | a :: b :: rest => max a (maxList (b :: rest))

/-- The comprehension
`[float(tx.get("amount", 0)) for tx in txs if float(tx.get("amount", 0)) > 0]`
(line 469): an unparsable amount raises out of the whole detector. -/
def posFloats : List Tx → Except Unit (List ℚ)
  | [] => .ok []
  | tx :: rest =>
    match parseAmount tx.amount with
    | none => .error ()
    | some a =>
      match posFloats rest with
      | .error e => .error e
      | .ok l => .ok (if 0 < a then a :: l else l)

/-- One output row of `detect_recurring_transactions`. -/
structure RecurringRec where
  merchant : String
  count : ℕ
  months_seen : List String
  avg_amount : ℚ
  total : ℚ
  category : String
  is_subscription : Bool
deriving DecidableEq

/-- The record built for a qualifying group (lines 472-490); `t0` is the
group's first transaction. -/
def mkRecurring (k : String) (g : List Tx) (t0 : Tx) (amounts : List ℚ) : RecurringRec :=
  let avg_amount := pySum amounts / (amounts.length : ℚ)
  let amount_variance :=
    if avg_amount = 0 then 1
    else maxList (amounts.map (fun a => |a - avg_amount|)) / avg_amount
  { merchant := (orTruthy t0.merchant_name t0.name).getD k
    count := g.length
    months_seen := pySortAsc id (monthsOf g)
    avg_amount := round2 avg_amount
    total := round2 (pySum amounts)
    category := recurringCategory t0
    is_subscription := decide (amount_variance < 1/20) }

/-- The main loop of `detect_recurring_transactions` (lines 459-490) over
the grouped merchants. -/
def detectRecurringLoop : List (String × List Tx) → Except Unit (List RecurringRec)
  | [] => .ok []
  | (k, g) :: rest =>
    if g.length < 2 then detectRecurringLoop rest
    else if (monthsOf g).length < 2 then detectRecurringLoop rest
    else
      match posFloats g with
      | .error e => .error e
      | .ok amounts =>
        match detectRecurringLoop rest with
        | .error e => .error e
        | .ok out =>
          if amounts = [] then .ok out
          else
            match g with
            | [] => .ok out
            | t0 :: _ => .ok (mkRecurring k g t0 amounts :: out)

/-- `detect_recurring_transactions` (lines 447-493). -/
def detect_recurring_transactions (transactions : List Tx) : Except Unit (List RecurringRec) :=
  match detectRecurringLoop (groupFold txKey (fun k => decide (k ≠ "")) transactions []) with
  | .error e => .error e
  | .ok recurring => .ok (pySortDesc RecurringRec.total recurring)

/-- One output row of `detect_anomalies`. -/
structure AnomalyRec where
  transaction_id : Option String
  merchant : String
  amount : ℚ
  category : String
  date : String
  category_avg : ℚ
  ratio : ℚ
  flag : String
deriving DecidableEq

/-- The anomaly record of lines 521-530. -/
def mkAnomaly (tx : Tx) (a avg : ℚ) (cat : String) : AnomalyRec :=
  { transaction_id := tx.transaction_id
    merchant := merchantOf tx
    amount := round2 a
    category := cat
    date := tx.date
    category_avg := round2 avg
    ratio := round1 (a / avg)
    flag := "$" ++ fmt2 a ++ " is " ++ fmt1 (a / avg) ++ "x the $" ++ fmt2 avg
            ++ " average for " ++ cat }

/-- The grouping loop of `detect_anomalies` (lines 499-512): parse the
amount (raising on failure), drop non-positive amounts, group the rest by
category. -/
def anomalyGroupsLoop : List Tx → List (String × List (ℚ × Tx)) →
    Except Unit (List (String × List (ℚ × Tx)))
  | [], gs => .ok gs
  | tx :: rest, gs =>
    match parseAmount tx.amount with
    | none => .error ()
    | some amount =>
      if amount ≤ 0 then anomalyGroupsLoop rest gs
      else anomalyGroupsLoop rest (addToGroup gs (anomalyCategory tx) (amount, tx))

/-- The flagging loop of `detect_anomalies` (lines 514-530). -/
def anomalyRecordsLoop (threshold : ℚ) : List (String × List (ℚ × Tx)) → List AnomalyRec
  | [] => []
  | (cat, items) :: rest =>
    let avg := pySum (items.map Prod.fst) / (items.length : ℚ)
    if avg ≤ 0 then anomalyRecordsLoop threshold rest
    else (items.filterMap fun p =>
            if threshold * avg < p.1 then some (mkAnomaly p.2 p.1 avg cat) else none)
         ++ anomalyRecordsLoop threshold rest

/-- `detect_anomalies` (lines 496-533). -/
def detect_anomalies (transactions : List Tx) (threshold : ℚ) :
    Except Unit (List AnomalyRec) :=
  match anomalyGroupsLoop transactions [] with
  | .error e => .error e
  | .ok gs => .ok (pySortDesc AnomalyRec.ratio (anomalyRecordsLoop threshold gs))

/-- `detect_anomalies` at its declared default `threshold=2.0`. -/
def detect_anomalies_default (transactions : List Tx) : Except Unit (List AnomalyRec) :=
  detect_anomalies transactions 2

/-- One entry of the `top_merchants` list of the statistics snapshot. -/
structure MerchantRec where
  name : String
  visits : ℕ
  total : ℚ
deriving DecidableEq

/-- The statistics snapshot returned by `calculate_stats`. -/
structure Stats where
  total_spent : ℚ
  total_income : ℚ
  net_cash_flow : ℚ
  transaction_count : ℕ
  avg_daily_spend : ℚ
  avg_transaction : ℚ
  category_breakdown : List (String × ℚ)
  top_category : Option String
  top_category_amount : ℚ
  top_merchants : List MerchantRec
  biggest_expense_day : Option String
deriving DecidableEq

/-- The in-pass accumulators of `calculate_stats`. -/
structure StatsAcc where
  total_spent : ℚ
  total_income : ℚ
  categories : List (String × ℚ)
  merchants : List (String × ℕ × ℚ)
  daily_spending : List (String × ℚ)
deriving DecidableEq

/-- All accumulators empty. -/
def emptyAcc : StatsAcc := ⟨0, 0, [], [], []⟩

/-- `d[k] = d.get(k, 0.0) + v` on an insertion-ordered dict. -/
def bumpVal : List (String × ℚ) → String → ℚ → List (String × ℚ)
  | [], k, v => [(k, v)]
  | (k2, v2) :: rest, k, v =>
      if k2 = k then (k2, v2 + v) :: rest else (k2, v2) :: bumpVal rest k v

/-- The merchant-dict update of lines 421-424: create `{count: 0, total: 0.0}`
when absent, then `count += 1`, `total += amount`. -/
def bumpMerchant : List (String × ℕ × ℚ) → String → ℚ → List (String × ℕ × ℚ)
  | [], k, v => [(k, 1, v)]
  | (k2, c, t) :: rest, k, v =>
      if k2 = k then (k2, c + 1, t + v) :: rest else (k2, c, t) :: bumpMerchant rest k v

/-- One iteration of the `calculate_stats` loop (lines 398-426); a record
whose amount fails to parse is skipped by the `except` clause. -/
def statsStep (acc : StatsAcc) (tx : Tx) : StatsAcc :=
  match parseAmount tx.amount with
  | none => acc
  | some amount =>
    let acc1 :=
      if 0 < amount then { acc with total_spent := acc.total_spent + amount }
      else { acc with total_income := acc.total_income + |amount| }
    let acc2 := { acc1 with categories := bumpVal acc1.categories (statsCategory tx) amount }
    let acc3 := { acc2 with merchants := bumpMerchant acc2.merchants (merchantOf tx) amount }
    if tx.date = "" then acc3
    else { acc3 with daily_spending := bumpVal acc3.daily_spending tx.date amount }

/-- `max(daily_spending, key=daily_spending.get)` keeps the first maximal
key; the fold only replaces on a strictly larger value. -/
def maxKeyAux : List (String × ℚ) → String → ℚ → String
  | [], bk, _ => bk
  | (k, v) :: rest, bk, bv =>
      if bv < v then maxKeyAux rest k v else maxKeyAux rest bk bv

/-- First key of maximal value in an insertion-ordered dict, if any. -/
def maxKeyByVal : List (String × ℚ) → Option String
  | [] => none
  | (k, v) :: rest => some (maxKeyAux rest k v)

/-- `calculate_stats` (lines 391-444). -/
def calculate_stats (transactions : List Tx) : Option Stats :=
  if transactions = [] then none
  else
    let acc := transactions.foldl statsStep emptyAcc
    let n_days := max acc.daily_spending.length 1
    let n_tx := max transactions.length 1
    let sorted_cats := pySortDesc Prod.snd acc.categories
    let top_merch := (pySortDesc (fun m => m.2.1) acc.merchants).take 5
    some
      { total_spent := round2 acc.total_spent
        total_income := round2 acc.total_income
        net_cash_flow := round2 (acc.total_income - acc.total_spent)
        transaction_count := transactions.length
        avg_daily_spend := round2 (acc.total_spent / (n_days : ℚ))
        avg_transaction := round2 (acc.total_spent / (n_tx : ℚ))
        category_breakdown := sorted_cats.map (fun p => (p.1, round2 p.2))
        top_category := sorted_cats.head?.map Prod.fst
        top_category_amount := match sorted_cats with | [] => 0 | c :: _ => round2 c.2
        top_merchants := top_merch.map (fun m => ⟨m.1, m.2.1, round2 m.2.2⟩)
        biggest_expense_day := maxKeyByVal acc.daily_spending }

/-- Parsed amount of a record, with `0` for an unparsable one (only used
in claim statements under a parse-success hypothesis). -/
def amountOf (tx : Tx) : ℚ := (parseAmount tx.amount).getD 0

/-- The transactions grouped under normalised merchant key `k`. -/
def groupOf (txs : List Tx) (k : String) : List Tx :=
  txs.filter (fun tx => txKey tx == k)

/-- The positive parsed amounts of a list of transactions, in order. -/
def posOf (g : List Tx) : List ℚ :=
  g.filterMap (fun tx =>
    match parseAmount tx.amount with
    | some a => if 0 < a then some a else none
    | none => none)

/-- The positive-amount transactions paired with their parsed amounts. -/
def posPairs (txs : List Tx) : List (ℚ × Tx) :=
  txs.filterMap (fun tx =>
    match parseAmount tx.amount with
    | some a => if 0 < a then some (a, tx) else none
    | none => none)

/-- Arithmetic mean of the positive amounts of category `c` in the batch. -/
def catMeanOf (txs : List Tx) (c : String) : ℚ :=
  let items := (posPairs txs).filter (fun p => anomalyCategory p.2 == c)
  pySum (items.map Prod.fst) / (items.length : ℚ)

/-- Claim-side description of one anomaly decision: a positive-amount
transaction is flagged exactly when its amount strictly exceeds
`threshold` times its category's mean positive amount. -/
def anomalySpec (txs : List Tx) (t : ℚ) (tx : Tx) : Option AnomalyRec :=
  match parseAmount tx.amount with
  | none => none
  | some a =>
    if 0 < a then
      if t * catMeanOf txs (anomalyCategory tx) < a then
        some (mkAnomaly tx a (catMeanOf txs (anomalyCategory tx)) (anomalyCategory tx))
      else none
    else none

/-- The flagging decision of `detect_anomalies` relative to a fixed list of
positive-amount pairs (proof-side restatement of the loop body). -/
def anomFlagWith (t : ℚ) (pos : List (ℚ × Tx)) (p : ℚ × Tx) : Option AnomalyRec :=
  let c := anomalyCategory p.2
  let items := pos.filter (fun p2 => anomalyCategory p2.2 == c)
  let avg := pySum (items.map Prod.fst) / (items.length : ℚ)
  if t * avg < p.1 then some (mkAnomaly p.2 p.1 avg c) else none

/-- Claim-side quantity of C4: maximum absolute deviation from the average,
divided by the average. -/
def relDev (l : List ℚ) : ℚ := maxList (l.map (fun a => |a - pyAvg l|)) / pyAvg l

/-- The number of distinct `YYYY-MM` buckets among a group's dated records. -/
def distinctMonthCount (g : List Tx) : ℕ := ((g.filterMap monthOf).toFinset).card

/-- Claim-side quantity of C5: the signed total over all of a group's
transactions, debits and credits alike. -/
def groupSignedTotal (txs : List Tx) (k : String) : ℚ :=
  pySum ((groupOf txs k).filterMap (fun tx => parseAmount tx.amount))

/-- The (with multiplicity) dates carrying any successfully parsed record. -/
def activeDates (txs : List Tx) : List String :=
  (txs.filter (fun tx => (parseAmount tx.amount).isSome && !(tx.date == ""))).map Tx.date

/-- Sum of the positive parsed amounts of a batch. -/
def sumPos (txs : List Tx) : ℚ := pySum (posOf txs)

/-- Sum of the absolute values of the non-positive parsed amounts. -/
def sumNegAbs (txs : List Tx) : ℚ :=
  pySum ((txs.filterMap (fun tx => parseAmount tx.amount)).filterMap
    (fun a => if 0 < a then none else some |a|))

/-- Every parsed amount of the batch parses (no `float()` call raises). -/
def allParse (txs : List Tx) : Prop := ∀ tx ∈ txs, (parseAmount tx.amount).isSome = true

instance (txs : List Tx) : Decidable (allParse txs) := List.decidableBAll _ txs

/-- The per-group decision of `detect_recurring_transactions`, as an
`Option`-valued step (the loop body's value in the parse-success regime). -/
def recStep : String × List Tx → Option RecurringRec
  | (k, g) =>
    if g.length < 2 then none
    else if (monthsOf g).length < 2 then none
    else if posOf g = [] then none
    else
      match g with
      | [] => none
      | t0 :: _ => some (mkRecurring k g t0 (posOf g))

/-! ### Concrete batches used by counterexamples and witnesses -/

/-- A transaction with no legacy/structured category. -/
def mkTx (tid : Option String) (amt : AmtVal) (d : String) (mn : Option String) : Tx :=
  ⟨tid, amt, d, mn, none, .cnone, none⟩

/-- A transaction with a bare-string legacy category. -/
def mkTxc (tid : Option String) (amt : AmtVal) (d : String) (mn : Option String)
    (cat : String) : Tx :=
  ⟨tid, amt, d, mn, none, .cstr cat, none⟩

/-- A record whose amount makes `float()` raise. -/
def txBadAmt : Tx := mkTx none .bad "2024-01-01" (some "Spotify")

/-- A parsable record with a missing date. -/
def txNoDate : Tx := mkTx none (.num 50) "" (some "A")

/-- A qualifying merchant group containing an unparsable amount. -/
def exC1err : List Tx := [txBadAmt, mkTx none (.num 10) "2024-02-01" (some "Spotify")]

/-- A batch on which every amount parses. -/
def exParseOk : List Tx :=
  [mkTx (some "p1") (.num 10) "2024-01-01" (some "A"),
   mkTx (some "p2") (.num 20) "2024-02-01" (some "A")]

/-- Two Amazon store numbers across two months plus a one-off merchant. -/
def exC2 : List Tx :=
  [mkTx (some "a1") (.num (1999/100)) "2024-01-05" (some "Amazon #4521"),
   mkTx (some "a2") (.num (1999/100)) "2024-02-05" (some "Amazon #9981"),
   mkTx (some "s1") (.num 5) "2024-01-06" (some "Starbucks")]

/-- The recurring output of `exC2`. -/
def exC2out : List RecurringRec :=
  [⟨"Amazon #4521", 2, ["2024-01", "2024-02"], 1999/100, 1999/50, "Other", true⟩]

/-- A category with one outlier at threshold 1. -/
def exAnom : List Tx :=
  [mkTxc (some "t1") (.num 3) "2024-01-05" (some "A") "Food",
   mkTxc (some "t2") (.num 1) "2024-01-06" (some "B") "Food"]

/-- The anomaly output of `exAnom` at threshold 1. -/
def exAnomOut : List AnomalyRec :=
  [⟨some "t1", "A", 3, "Food", "2024-01-05", 2, 3/2,
    "$3.00 is 1.5x the $2.00 average for Food"⟩]

/-- A fixed-price merchant, three occurrences across three months. -/
def exC4 : List Tx :=
  [mkTx (some "sp1") (.num 10) "2024-01-02" (some "Spotify"),
   mkTx (some "sp2") (.num 10) "2024-02-02" (some "Spotify"),
   mkTx (some "sp3") (.num 10) "2024-03-02" (some "Spotify")]

/-- The single recurring record of `exC4`. -/
def exC4rec : RecurringRec :=
  ⟨"Spotify", 3, ["2024-01", "2024-02", "2024-03"], 10, 30, "Other", true⟩

/-- Two recurring merchants whose positive totals and signed totals order
in opposite ways (Alpha holds a large refund). -/
def exC5 : List Tx :=
  [mkTx (some "x1") (.num 100) "2024-01-01" (some "Alpha"),
   mkTx (some "x2") (.num 100) "2024-02-01" (some "Alpha"),
   mkTx (some "x3") (.num (-300)) "2024-01-15" (some "Alpha"),
   mkTx (some "y1") (.num 50) "2024-01-01" (some "Beta"),
   mkTx (some "y2") (.num 50) "2024-02-01" (some "Beta")]

/-- The recurring output of `exC5`. -/
def exC5out : List RecurringRec :=
  [⟨"Alpha", 3, ["2024-01", "2024-02"], 100, 200, "Other", true⟩,
   ⟨"Beta", 2, ["2024-01", "2024-02"], 50, 100, "Other", true⟩]

/-- Three days of spending whose daily average needs more than 2 decimals. -/
def exC7 : List Tx :=
  [mkTx none (.num 1) "2024-01-01" (some "A"),
   mkTx none (.num (1/20)) "2024-01-02" (some "A"),
   mkTx none (.num (1/20)) "2024-01-03" (some "A")]

/-- A single amount with 3 decimal places. -/
def exC8 : List Tx := [mkTx none (.num (111/1000)) "2024-01-01" (some "A")]

/-- A one-record batch with round numbers. -/
def exW7 : List Tx := [mkTx (some "w1") (.num 10) "2024-01-01" (some "A")]

/-- The snapshot of `exW7`. -/
def statsW7 : Stats :=
  ⟨10, 0, -10, 1, 10, 10, [("Other", 10)], some "Other", 10, [⟨"A", 1, 10⟩],
   some "2024-01-01"⟩

/-- A non-empty batch in which no amount parses. -/
def exW10 : List Tx := [mkTx none .bad "" none]

/-! ### Infrastructure: `insertNew` folds -/

theorem mem_insertNew {l : List String} {a k : String} :
    k ∈ insertNew l a ↔ k ∈ l ∨ k = a := by
  unfold insertNew
  by_cases h : a ∈ l
  · simp only [if_pos h]
    constructor
    · exact Or.inl
    · rintro (hk | rfl)
      · exact hk
      · exact h
  · simp [if_neg h]

theorem mem_foldl_insertNew (s : List String) (acc : List String) (k : String) :
    k ∈ s.foldl insertNew acc ↔ k ∈ acc ∨ k ∈ s := by
  induction s generalizing acc with
  | nil => simp
  | cons a rest ih =>
    rw [List.foldl_cons, ih]
    rw [mem_insertNew]
    simp only [List.mem_cons]
    tauto

theorem nodup_insertNew {l : List String} (h : l.Nodup) (a : String) :
    (insertNew l a).Nodup := by
  unfold insertNew
  by_cases ha : a ∈ l
  · simpa [ha]
  · simp only [if_neg ha]
    simpa [List.nodup_append] using ⟨h, ha⟩

theorem nodup_foldl_insertNew (s : List String) (acc : List String) (h : acc.Nodup) :
    (s.foldl insertNew acc).Nodup := by
  induction s generalizing acc with
  | nil => simpa
  | cons a rest ih => exact ih _ (nodup_insertNew h a)

theorem mem_firstKeys {s : List String} {k : String} : k ∈ firstKeys s ↔ k ∈ s := by
  unfold firstKeys
  rw [mem_foldl_insertNew]
  simp

theorem nodup_firstKeys (s : List String) : (firstKeys s).Nodup :=
  nodup_foldl_insertNew s [] List.nodup_nil

theorem firstKeys_append_singleton (s : List String) (k : String) :
    firstKeys (s ++ [k]) = insertNew (firstKeys s) k := by
  unfold firstKeys
  rw [List.foldl_append]
  rfl

theorem length_foldl_insertNew_eq_card (s : List String) :
    (s.foldl insertNew []).length = s.toFinset.card := by
  have hnd : (s.foldl insertNew []).Nodup := nodup_foldl_insertNew s [] List.nodup_nil
  have hset : (s.foldl insertNew []).toFinset = s.toFinset := by
    apply Finset.ext
    intro a
    simp [List.mem_toFinset, mem_foldl_insertNew]
  rw [← List.toFinset_card_of_nodup hnd, hset]

theorem monthsOf_length_eq (g : List Tx) : (monthsOf g).length = distinctMonthCount g :=
  length_foldl_insertNew_eq_card _

/-! ### Infrastructure: the grouping fold -/

theorem addToGroup_map_of_mem {α : Type} (f : String → List α) (k : String) (x : α) :
    ∀ ks : List String, ks.Nodup → k ∈ ks →
    addToGroup (ks.map (fun k2 => (k2, f k2))) k x =
      ks.map (fun k2 => (k2, if k2 = k then f k2 ++ [x] else f k2))
  | [], _, hk => absurd hk (List.not_mem_nil k)
  | a :: rest, hnd, hk => by
    by_cases hak : a = k
    · subst hak
      have hnot : a ∉ rest := (List.nodup_cons.mp hnd).1
      simp only [List.map_cons, addToGroup, if_true]
      congr 1
      apply List.map_congr_left
      intro b hb
      have hba : b ≠ a := fun hba => hnot (hba ▸ hb)
      rw [if_neg hba]
    · have hk' : k ∈ rest := by
        rcases List.mem_cons.mp hk with h | h
        · exact absurd h.symm hak
        · exact h
      simp only [List.map_cons, addToGroup]
      rw [if_neg hak, if_neg hak]
      rw [addToGroup_map_of_mem f k x rest (List.nodup_cons.mp hnd).2 hk']

theorem addToGroup_map_of_not_mem {α : Type} (f : String → List α) (k : String) (x : α) :
    ∀ ks : List String, k ∉ ks →
    addToGroup (ks.map (fun k2 => (k2, f k2))) k x =
      ks.map (fun k2 => (k2, f k2)) ++ [(k, [x])]
  | [], _ => rfl
  | a :: rest, hk => by
    have hak : a ≠ k := fun h => hk (h ▸ List.mem_cons_self a rest)
    simp only [List.map_cons, addToGroup, if_neg hak]
    rw [addToGroup_map_of_not_mem f k x rest (fun h => hk (List.mem_cons_of_mem a h))]
    rfl

theorem groupFold_append_singleton {α : Type} (keyOf : α → String) (keep : String → Bool)
    (l : List α) (x : α) (gs : List (String × List α)) :
    groupFold keyOf keep (l ++ [x]) gs =
      if keep (keyOf x) then addToGroup (groupFold keyOf keep l gs) (keyOf x) x
      else groupFold keyOf keep l gs := by
  induction l generalizing gs with
  | nil => rfl
  | cons a rest ih =>
    simp only [List.cons_append, groupFold]
    exact ih _

theorem groupFold_characterisation {α : Type} (keyOf : α → String) (keep : String → Bool)
    (l : List α) :
    groupFold keyOf keep l [] =
      (firstKeys ((l.map keyOf).filter keep)).map
        (fun k => (k, l.filter (fun x => keyOf x == k))) := by
  induction l using List.reverseRecOn with
  | nil => rfl
  | append_singleton l x ih =>
    rw [groupFold_append_singleton, ih]
    have hmapapp : ((l ++ [x]).map keyOf).filter keep
        = (l.map keyOf).filter keep ++ if keep (keyOf x) then [keyOf x] else [] := by
      rw [List.map_append, List.filter_append]
      congr 1
      cases hkx : keep (keyOf x) <;> simp [List.filter_cons, hkx]
    by_cases hkeep : keep (keyOf x) = true
    · rw [if_pos hkeep, hmapapp, if_pos hkeep, firstKeys_append_singleton]
      by_cases hmem : keyOf x ∈ firstKeys ((l.map keyOf).filter keep)
      · rw [insertNew, if_pos hmem]
        rw [addToGroup_map_of_mem _ _ _ _ (nodup_firstKeys _) hmem]
        apply List.map_congr_left
        intro k hk
        rw [List.filter_append]
        by_cases hxk : keyOf x = k
        · subst hxk
          rw [if_pos rfl]
          simp [List.filter_cons]
        · have hb : (keyOf x == k) = false := by simpa using hxk
          rw [if_neg (fun h => hxk h.symm)]
          simp [List.filter_cons, hb]
      · rw [insertNew, if_neg hmem]
        rw [addToGroup_map_of_not_mem _ _ _ _ hmem]
        rw [List.map_append]
        congr 1
        · apply List.map_congr_left
          intro k hk
          rw [List.filter_append]
          have hxk : keyOf x ≠ k := fun h => hmem (h ▸ hk)
          have hb : (keyOf x == k) = false := by simpa using hxk
          simp [List.filter_cons, hb]
        · have hnot : ∀ y ∈ l, ¬(keyOf y == keyOf x) = true := by
            intro y hy hb
            have heq : keyOf y = keyOf x := by simpa using hb
            apply hmem
            rw [mem_firstKeys, List.mem_filter]
            constructor
            · rw [← heq]
              exact List.mem_map_of_mem keyOf hy
            · exact hkeep
          simp only [List.map_cons, List.map_nil]
          rw [List.filter_append]
          have h1 : l.filter (fun y => keyOf y == keyOf x) = [] := by
            rw [List.filter_eq_nil_iff]
            exact hnot
          simp [h1]
    · rw [if_neg hkeep, hmapapp, if_neg hkeep, List.append_nil]
      apply List.map_congr_left
      intro k hk
      rw [List.filter_append]
      have hkkeep : keep k = true := by
        have := mem_firstKeys.mp hk
        exact (List.mem_filter.mp this).2
      have hxk : keyOf x ≠ k := fun h => by rw [h] at hkeep; exact hkeep hkkeep
      have hb : (keyOf x == k) = false := by simpa using hxk
      simp [List.filter_cons, hb]

/-! ### Infrastructure: the stable sorts -/

theorem pySortDesc_perm {α β : Type} [LinearOrder β] (f : α → β) (l : List α) :
    (pySortDesc f l).Perm l :=
  List.perm_insertionSort _ l

theorem pySortDesc_sorted {α β : Type} [LinearOrder β] (f : α → β) (l : List α) :
    (pySortDesc f l).Pairwise (fun a b => f b ≤ f a) := by
  haveI : IsTotal α (fun a b => f b ≤ f a) := ⟨fun a b => le_total (f b) (f a)⟩
  haveI : IsTrans α (fun a b => f b ≤ f a) := ⟨fun a b c hab hbc => le_trans hbc hab⟩
  exact List.sorted_insertionSort _ l

/-! ### Infrastructure: positive-amount extraction -/

theorem posFloats_eq (g : List Tx) (h : ∀ tx ∈ g, (parseAmount tx.amount).isSome = true) :
    posFloats g = Except.ok (posOf g) := by
  induction g with
  | nil => rfl
  | cons tx rest ih =>
    obtain ⟨a, ha⟩ := Option.isSome_iff_exists.mp (h tx (List.mem_cons_self tx rest))
    have ih' := ih (fun t ht => h t (List.mem_cons_of_mem tx ht))
    simp only [posFloats, posOf, List.filterMap_cons, ha, ih']
    by_cases hpos : 0 < a
    · simp [posOf, hpos]
    · simp [posOf, hpos]

theorem posOf_mem_pos {g : List Tx} {a : ℚ} (ha : a ∈ posOf g) : 0 < a := by
  obtain ⟨tx, _, htx⟩ := List.mem_filterMap.mp ha
  revert htx
  cases parseAmount tx.amount with
  | none => intro h; cases h
  | some b =>
    by_cases hb : 0 < b
    · intro h
      simp only [if_pos hb, Option.some.injEq] at h
      exact h ▸ hb
    · intro h
      simp [if_neg hb] at h

theorem posOf_ne_nil_iff {g : List Tx} (h : ∀ tx ∈ g, (parseAmount tx.amount).isSome = true) :
    posOf g ≠ [] ↔ ∃ tx ∈ g, 0 < amountOf tx := by
  unfold posOf
  rw [ne_eq, List.filterMap_eq_nil_iff]
  push_neg
  constructor
  · rintro ⟨tx, htx, hne⟩
    refine ⟨tx, htx, ?_⟩
    revert hne
    obtain ⟨a, ha⟩ := Option.isSome_iff_exists.mp (h tx htx)
    unfold amountOf
    rw [ha]
    by_cases hpos : 0 < a
    · intro _
      simpa using hpos
    · intro hne
      simp [hpos] at hne
  · rintro ⟨tx, htx, hpos⟩
    refine ⟨tx, htx, ?_⟩
    revert hpos
    obtain ⟨a, ha⟩ := Option.isSome_iff_exists.mp (h tx htx)
    unfold amountOf
    rw [ha]
    intro hpos
    simp only [Option.getD_some] at hpos
    simp [hpos]

theorem pySum_pos {l : List ℚ} (h : ∀ a ∈ l, 0 < a) (hne : l ≠ []) : 0 < pySum l :=
  List.sum_pos l h hne

theorem pyAvg_pos {l : List ℚ} (h : ∀ a ∈ l, 0 < a) (hne : l ≠ []) : 0 < pyAvg l := by
  unfold pyAvg
  apply div_pos (pySum_pos h hne)
  have : 0 < l.length := List.length_pos.mpr hne
  exact_mod_cast this

/-! ### The recurring detector, characterised -/

theorem detectRecurringLoop_eq (gs : List (String × List Tx))
    (h : ∀ p ∈ gs, ∀ tx ∈ p.2, (parseAmount tx.amount).isSome = true) :
    detectRecurringLoop gs = Except.ok (gs.filterMap recStep) := by
  induction gs with
  | nil => rfl
  | cons p rest ih =>
    obtain ⟨k, g⟩ := p
    have hg : ∀ tx ∈ g, (parseAmount tx.amount).isSome = true :=
      h (k, g) (List.mem_cons_self _ _)
    have ih' := ih (fun q hq => h q (List.mem_cons_of_mem _ hq))
    by_cases h1 : g.length < 2
    · simp [detectRecurringLoop, recStep, h1, ih', List.filterMap_cons]
    · by_cases h2 : (monthsOf g).length < 2
      · simp [detectRecurringLoop, recStep, h1, h2, ih', List.filterMap_cons]
      · by_cases h3 : posOf g = []
        · simp [detectRecurringLoop, recStep, h1, h2, h3, ih', posFloats_eq g hg,
            List.filterMap_cons]
        · cases g with
          | nil => simp at h1
          | cons t0 grest =>
            have h1' : ¬grest.length + 1 < 2 := by simpa using h1
            simp [detectRecurringLoop, recStep, h1, h1', h2, h3, ih',
              posFloats_eq (t0 :: grest) hg, List.filterMap_cons]

/-- The grouped form of `detect_recurring_transactions` under parse success. -/
theorem detect_recurring_eq (txs : List Tx) (h : allParse txs) :
    detect_recurring_transactions txs =
      Except.ok (pySortDesc RecurringRec.total
        (((firstKeys ((txs.map txKey).filter (fun k => decide (k ≠ "")))).map
          (fun k => (k, groupOf txs k))).filterMap recStep)) := by
  have hpar : ∀ p ∈ (firstKeys ((txs.map txKey).filter (fun k => decide (k ≠ "")))).map
      (fun k => (k, txs.filter (fun x => txKey x == k))),
      ∀ tx ∈ p.2, (parseAmount tx.amount).isSome = true := by
    intro p hp tx htx
    obtain ⟨k, hk, hpk⟩ := List.mem_map.mp hp
    apply h
    rw [← hpk] at htx
    exact (List.mem_filter.mp htx).1
  unfold detect_recurring_transactions
  rw [groupFold_characterisation, detectRecurringLoop_eq _ hpar]
  rfl

theorem posFloats_ok : ∀ {g : List Tx} {l : List ℚ}, posFloats g = Except.ok l →
    (∀ tx ∈ g, (parseAmount tx.amount).isSome = true) ∧ l = posOf g
  | [], l, hok => by
    have hl : l = [] := (Except.ok.inj hok).symm
    subst hl
    exact ⟨fun tx htx => absurd htx (List.not_mem_nil tx), rfl⟩
  | tx :: rest, l, hok => by
    cases hpa : parseAmount tx.amount with
    | none =>
      rw [posFloats, hpa] at hok
      exact Except.noConfusion hok
    | some a =>
      rw [posFloats, hpa] at hok
      cases hrest : posFloats rest with
      | error e =>
        rw [hrest] at hok
        exact Except.noConfusion hok
      | ok l2 =>
        rw [hrest] at hok
        obtain ⟨hall, hl2⟩ := posFloats_ok hrest
        refine ⟨?_, ?_⟩
        · intro t2 ht2
          rcases List.mem_cons.mp ht2 with h | h
          · rw [h, hpa]
            rfl
          · exact hall t2 h
        · have hl := (Except.ok.inj hok).symm
          subst hl
          unfold posOf
          rw [List.filterMap_cons]
          by_cases hap : 0 < a
          · simp only [hpa, if_pos hap, hl2]
            rfl
          · simp only [hpa, if_neg hap, hl2]
            rfl

theorem detectRecurringLoop_ok_posFloats :
    ∀ (gs : List (String × List Tx)) (out : List RecurringRec),
      detectRecurringLoop gs = Except.ok out →
      ∀ p ∈ gs, ¬p.2.length < 2 → ¬(monthsOf p.2).length < 2 →
        ∃ l, posFloats p.2 = Except.ok l
  | [], _, _, p, hp, _, _ => absurd hp (List.not_mem_nil p)
  | (k, g) :: rest, out, hok, p, hp, hp1, hp2 => by
    by_cases h1 : g.length < 2
    · have hok' : detectRecurringLoop rest = Except.ok out := by
        simpa [detectRecurringLoop, h1] using hok
      rcases List.mem_cons.mp hp with heq | hmem
      · exfalso
        apply hp1
        rw [heq]
        exact h1
      · exact detectRecurringLoop_ok_posFloats rest out hok' p hmem hp1 hp2
    · by_cases h2 : (monthsOf g).length < 2
      · have hok' : detectRecurringLoop rest = Except.ok out := by
          simpa [detectRecurringLoop, h1, h2] using hok
        rcases List.mem_cons.mp hp with heq | hmem
        · exfalso
          apply hp2
          rw [heq]
          exact h2
        · exact detectRecurringLoop_ok_posFloats rest out hok' p hmem hp1 hp2
      · cases hpf : posFloats g with
        | error e =>
          exfalso
          have hstep : detectRecurringLoop ((k, g) :: rest) = Except.error e := by
            simp [detectRecurringLoop, h1, h2, hpf]
          rw [hstep] at hok
          exact Except.noConfusion hok
        | ok amounts =>
          rcases List.mem_cons.mp hp with heq | hmem
          · refine ⟨amounts, ?_⟩
            rw [heq]
            exact hpf
          · cases hloop : detectRecurringLoop rest with
            | error e =>
              exfalso
              have hstep : detectRecurringLoop ((k, g) :: rest) = Except.error e := by
                simp [detectRecurringLoop, h1, h2, hpf, hloop]
              rw [hstep] at hok
              exact Except.noConfusion hok
            | ok out2 =>
              exact detectRecurringLoop_ok_posFloats rest out2 hloop p hmem hp1 hp2

theorem detectRecurringLoop_mem :
    ∀ (gs : List (String × List Tx)) (out : List RecurringRec),
      detectRecurringLoop gs = Except.ok out →
      ∀ r : RecurringRec,
        (r ∈ out ↔ ∃ p ∈ gs, ∃ (l : List ℚ) (t0 : Tx) (g2 : List Tx),
          ¬p.2.length < 2 ∧ ¬(monthsOf p.2).length < 2 ∧ posFloats p.2 = Except.ok l ∧
          l ≠ [] ∧ p.2 = t0 :: g2 ∧ r = mkRecurring p.1 p.2 t0 l)
  | [], out, hok, r => by
    have hout : [] = out := Except.ok.inj hok
    rw [← hout]
    simp
  | (k, g) :: rest, out, hok, r => by
    by_cases h1 : g.length < 2
    · have hok' : detectRecurringLoop rest = Except.ok out := by
        simpa [detectRecurringLoop, h1] using hok
      rw [detectRecurringLoop_mem rest out hok' r]
      constructor
      · rintro ⟨p, hp, rest2⟩
        exact ⟨p, List.mem_cons_of_mem _ hp, rest2⟩
      · rintro ⟨p, hp, l, t0, g2, hh1, rest2⟩
        rcases List.mem_cons.mp hp with heq | hmem
        · exfalso
          rw [heq] at hh1
          exact hh1 h1
        · exact ⟨p, hmem, l, t0, g2, hh1, rest2⟩
    · by_cases h2 : (monthsOf g).length < 2
      · have hok' : detectRecurringLoop rest = Except.ok out := by
          simpa [detectRecurringLoop, h1, h2] using hok
        rw [detectRecurringLoop_mem rest out hok' r]
        constructor
        · rintro ⟨p, hp, rest2⟩
          exact ⟨p, List.mem_cons_of_mem _ hp, rest2⟩
        · rintro ⟨p, hp, l, t0, g2, hh1, hh2, rest2⟩
          rcases List.mem_cons.mp hp with heq | hmem
          · exfalso
            rw [heq] at hh2
            exact hh2 h2
          · exact ⟨p, hmem, l, t0, g2, hh1, hh2, rest2⟩
      · cases hpf : posFloats g with
        | error e =>
          exfalso
          have hstep : detectRecurringLoop ((k, g) :: rest) = Except.error e := by
            simp [detectRecurringLoop, h1, h2, hpf]
          rw [hstep] at hok
          exact Except.noConfusion hok
        | ok amounts =>
          cases hloop : detectRecurringLoop rest with
          | error e =>
            exfalso
            have hstep : detectRecurringLoop ((k, g) :: rest) = Except.error e := by
              simp [detectRecurringLoop, h1, h2, hpf, hloop]
            rw [hstep] at hok
            exact Except.noConfusion hok
          | ok out2 =>
            have hih := detectRecurringLoop_mem rest out2 hloop r
            by_cases hae : amounts = []
            · have hstep : detectRecurringLoop ((k, g) :: rest) = Except.ok out2 := by
                simp [detectRecurringLoop, h1, h2, hpf, hloop, hae]
              rw [hstep] at hok
              have hout : out = out2 := (Except.ok.inj hok).symm
              rw [hout, hih]
              constructor
              · rintro ⟨p, hp, rest2⟩
                exact ⟨p, List.mem_cons_of_mem _ hp, rest2⟩
              · rintro ⟨p, hp, l, t0, g2, hh1, hh2, hpf2, hlne, rest2⟩
                rcases List.mem_cons.mp hp with heq | hmem
                · exfalso
                  apply hlne
                  subst heq
                  have hpf2' : posFloats g = Except.ok l := hpf2
                  rw [hpf2'] at hpf
                  rw [Except.ok.inj hpf]
                  exact hae
                · exact ⟨p, hmem, l, t0, g2, hh1, hh2, hpf2, hlne, rest2⟩
            · cases g with
              | nil => simp at h1
              | cons t0 g2 =>
                have hstep : detectRecurringLoop ((k, t0 :: g2) :: rest)
                    = Except.ok (mkRecurring k (t0 :: g2) t0 amounts :: out2) := by
                  have h1' : 1 ≤ g2.length := by
                    simp only [List.length_cons] at h1
                    omega
                  simp [detectRecurringLoop, h1, h2, hpf, hloop, hae, h1']
                rw [hstep] at hok
                have hout : out = mkRecurring k (t0 :: g2) t0 amounts :: out2 :=
                  (Except.ok.inj hok).symm
                rw [hout, List.mem_cons, hih]
                constructor
                · rintro (hr | ⟨p, hp, rest2⟩)
                  · exact ⟨(k, t0 :: g2), List.mem_cons_self _ _, amounts, t0, g2,
                      h1, h2, hpf, hae, rfl, hr⟩
                  · exact ⟨p, List.mem_cons_of_mem _ hp, rest2⟩
                · rintro ⟨p, hp, l, t02, g22, hh1, hh2, hpf2, hlne, hg2, hr⟩
                  rcases List.mem_cons.mp hp with heq | hmem
                  · left
                    subst heq
                    have hpf2' : posFloats (t0 :: g2) = Except.ok l := hpf2
                    have hg2' : t0 :: g2 = t02 :: g22 := hg2
                    have hr' : r = mkRecurring k (t0 :: g2) t02 l := hr
                    have hla : l = amounts := by
                      rw [hpf2'] at hpf
                      exact Except.ok.inj hpf
                    have ht02 : t02 = t0 := (List.cons_eq_cons.mp hg2').1.symm
                    rw [hr', hla, ht02]
                  · right
                    exact ⟨p, hmem, l, t02, g22, hh1, hh2, hpf2, hlne, hg2, hr⟩

theorem merchantKeyOf_mkRecurring {k : String} {g : List Tx} {t0 : Tx} {amounts : List ℚ}
    (ht0 : txKey t0 = k) (hk : k ≠ "") :
    merchantKeyOf (mkRecurring k g t0 amounts).merchant = k := by
  have hmer : (mkRecurring k g t0 amounts).merchant = (orTruthy t0.merchant_name t0.name).getD k :=
    rfl
  cases horT : orTruthy t0.merchant_name t0.name with
  | none =>
    exfalso
    apply hk
    rw [← ht0]
    show merchantKeyOf (displayRaw t0) = ""
    unfold displayRaw
    rw [horT]
    rfl
  | some s =>
    rw [hmer, horT, Option.getD_some, ← ht0]
    show merchantKeyOf s = merchantKeyOf (displayRaw t0)
    unfold displayRaw
    rw [horT, Option.getD_some]

theorem group_allParse {txs : List Tx} (h : allParse txs) (k : String) :
    ∀ tx ∈ groupOf txs k, (parseAmount tx.amount).isSome = true := by
  intro tx htx
  exact h tx (List.mem_filter.mp htx).1

/-- Anatomy of a record of `detect_recurring_transactions`' successful
output: it comes from a unique qualifying merchant group, whose amounts
necessarily all parsed. -/
theorem mem_recurring_out {txs : List Tx} {out : List RecurringRec}
    (hout : detect_recurring_transactions txs = Except.ok out) {r : RecurringRec}
    (hr : r ∈ out) :
    ∃ k, k ≠ "" ∧ merchantKeyOf r.merchant = k ∧
      (∀ tx ∈ groupOf txs k, (parseAmount tx.amount).isSome = true) ∧
      ∃ t0 grest, groupOf txs k = t0 :: grest ∧
      2 ≤ (groupOf txs k).length ∧ 2 ≤ (monthsOf (groupOf txs k)).length ∧
      posOf (groupOf txs k) ≠ [] ∧
      r = mkRecurring k (groupOf txs k) t0 (posOf (groupOf txs k)) := by
  unfold detect_recurring_transactions at hout
  rw [groupFold_characterisation] at hout
  cases hloop : detectRecurringLoop
      ((firstKeys ((txs.map txKey).filter (fun k => decide (k ≠ "")))).map
        (fun k => (k, txs.filter (fun x => txKey x == k)))) with
  | error e =>
    rw [hloop] at hout
    exact Except.noConfusion hout
  | ok rec =>
    rw [hloop] at hout
    have hout2 : pySortDesc RecurringRec.total rec = out := Except.ok.inj hout
    rw [← hout2] at hr
    have hrL := (pySortDesc_perm RecurringRec.total _).mem_iff.mp hr
    obtain ⟨p, hp, l, t0, grest, hh1, hh2, hpf, hlne, hg, hrec⟩ :=
      (detectRecurringLoop_mem _ rec hloop r).mp hrL
    obtain ⟨k, hkmem, hpk⟩ := List.mem_map.mp hp
    subst hpk
    have hkne : k ≠ "" := by
      have := (List.mem_filter.mp (mem_firstKeys.mp hkmem)).2
      simpa using this
    have hg' : groupOf txs k = t0 :: grest := hg
    obtain ⟨hall, hlpos⟩ := posFloats_ok hpf
    have hall' : ∀ tx ∈ groupOf txs k, (parseAmount tx.amount).isSome = true := hall
    have hlpos' : l = posOf (groupOf txs k) := hlpos
    have ht0 : txKey t0 = k := by
      have : t0 ∈ groupOf txs k := by rw [hg']; exact List.mem_cons_self _ _
      have := (List.mem_filter.mp this).2
      simpa using this
    have hrec' : r = mkRecurring k (groupOf txs k) t0 (posOf (groupOf txs k)) := by
      rw [← hlpos']
      exact hrec
    refine ⟨k, hkne, ?_, hall', t0, grest, hg', ?_, ?_, ?_, hrec'⟩
    · rw [hrec']
      exact merchantKeyOf_mkRecurring ht0 hkne
    · exact Nat.not_lt.mp hh1
    · exact Nat.not_lt.mp hh2
    · rw [← hlpos']
      exact hlne

/-- C2 helper: with a successful run, a qualifying group key produces a
member of the output (its amounts all parse, else the run would raise). -/
theorem recurring_out_of_group {txs : List Tx} {out : List RecurringRec}
    (hout : detect_recurring_transactions txs = Except.ok out) {k : String}
    (hkne : k ≠ "") (hlen : 2 ≤ (groupOf txs k).length)
    (hmon : 2 ≤ (monthsOf (groupOf txs k)).length)
    (hex : ∃ tx ∈ groupOf txs k, 0 < amountOf tx) :
    ∃ r ∈ out, merchantKeyOf r.merchant = k := by
  unfold detect_recurring_transactions at hout
  rw [groupFold_characterisation] at hout
  cases hloop : detectRecurringLoop
      ((firstKeys ((txs.map txKey).filter (fun k => decide (k ≠ "")))).map
        (fun k => (k, txs.filter (fun x => txKey x == k)))) with
  | error e =>
    rw [hloop] at hout
    exact Except.noConfusion hout
  | ok rec =>
    rw [hloop] at hout
    have hout2 : pySortDesc RecurringRec.total rec = out := Except.ok.inj hout
    have hne : groupOf txs k ≠ [] := by
      intro h0
      rw [h0] at hlen
      simp at hlen
    obtain ⟨t0, grest, hg⟩ := List.exists_cons_of_ne_nil hne
    have ht0 : txKey t0 = k := by
      have : t0 ∈ groupOf txs k := by rw [hg]; exact List.mem_cons_self _ _
      have := (List.mem_filter.mp this).2
      simpa using this
    have ht0txs : t0 ∈ txs := by
      have : t0 ∈ groupOf txs k := by rw [hg]; exact List.mem_cons_self _ _
      exact (List.mem_filter.mp this).1
    have hkmem : k ∈ firstKeys ((txs.map txKey).filter (fun k2 => decide (k2 ≠ ""))) := by
      rw [mem_firstKeys, List.mem_filter]
      constructor
      · rw [← ht0]
        exact List.mem_map_of_mem txKey ht0txs
      · simpa using hkne
    have hpmem : (k, groupOf txs k) ∈
        (firstKeys ((txs.map txKey).filter (fun k2 => decide (k2 ≠ "")))).map
          (fun k2 => (k2, txs.filter (fun x => txKey x == k2))) :=
      List.mem_map_of_mem _ hkmem
    obtain ⟨l, hpf⟩ := detectRecurringLoop_ok_posFloats _ rec hloop (k, groupOf txs k) hpmem
      (Nat.not_lt.mpr hlen) (Nat.not_lt.mpr hmon)
    obtain ⟨hall, hlpos⟩ := posFloats_ok hpf
    have hposne : posOf (groupOf txs k) ≠ [] := (posOf_ne_nil_iff hall).mpr hex
    have hlne : l ≠ [] := by
      rw [hlpos]
      exact hposne
    refine ⟨mkRecurring k (groupOf txs k) t0 l, ?_, merchantKeyOf_mkRecurring ht0 hkne⟩
    rw [← hout2]
    apply (pySortDesc_perm RecurringRec.total _).mem_iff.mpr
    exact (detectRecurringLoop_mem _ rec hloop _).mpr
      ⟨(k, groupOf txs k), hpmem, l, t0, grest,
        Nat.not_lt.mpr hlen, Nat.not_lt.mpr hmon, hpf, hlne, hg, rfl⟩

/-! ### The anomaly detector, characterised -/

theorem anomalyGroupsLoop_eq (txs : List Tx) (h : allParse txs) :
    ∀ gs, anomalyGroupsLoop txs gs = Except.ok
      (groupFold (fun p => anomalyCategory p.2) (fun _ => true) (posPairs txs) gs) := by
  induction txs with
  | nil => intro gs; rfl
  | cons tx rest ih =>
    intro gs
    obtain ⟨a, ha⟩ := Option.isSome_iff_exists.mp (h tx (List.mem_cons_self tx rest))
    have ih' := ih (fun t2 ht => h t2 (List.mem_cons_of_mem tx ht))
    simp only [anomalyGroupsLoop, posPairs, List.filterMap_cons, ha]
    by_cases hpos : 0 < a
    · have hnle : ¬a ≤ 0 := not_le.mpr hpos
      simp only [if_neg hnle, if_pos hpos]
      rw [ih']
      rfl
    · have hle : a ≤ 0 := not_lt.mp hpos
      simp only [if_pos hle, if_neg hpos]
      rw [ih']
      rfl

/-- A successful grouping pass of `detect_anomalies` forces every amount in
the batch to parse (the loop parses each record unconditionally). -/
theorem anomalyGroupsLoop_ok_allParse :
    ∀ (txs : List Tx) (gs gs2 : List (String × List (ℚ × Tx))),
      anomalyGroupsLoop txs gs = Except.ok gs2 → allParse txs
  | [], _, _, _ => fun tx htx => absurd htx (List.not_mem_nil tx)
  | tx :: rest, gs, gs2, hok => by
    cases hpa : parseAmount tx.amount with
    | none =>
      exfalso
      rw [anomalyGroupsLoop, hpa] at hok
      exact Except.noConfusion hok
    | some a =>
      intro t2 ht2
      rcases List.mem_cons.mp ht2 with heq | ht2'
      · rw [heq, hpa]
        rfl
      · by_cases hle : a ≤ 0
        · refine anomalyGroupsLoop_ok_allParse rest gs gs2 ?_ t2 ht2'
          simpa [anomalyGroupsLoop, hpa, hle] using hok
        · refine anomalyGroupsLoop_ok_allParse rest
            (addToGroup gs (anomalyCategory tx) (a, tx)) gs2 ?_ t2 ht2'
          simpa [anomalyGroupsLoop, hpa, hle] using hok

theorem detect_anomalies_ok_allParse {txs : List Tx} {t : ℚ} {out : List AnomalyRec}
    (hout : detect_anomalies txs t = Except.ok out) : allParse txs := by
  unfold detect_anomalies at hout
  cases hgs : anomalyGroupsLoop txs [] with
  | error e =>
    rw [hgs] at hout
    exact Except.noConfusion hout
  | ok gs => exact anomalyGroupsLoop_ok_allParse txs [] gs hgs

theorem detect_anomalies_eq (txs : List Tx) (t : ℚ) (h : allParse txs) :
    detect_anomalies txs t = Except.ok (pySortDesc AnomalyRec.ratio
      (anomalyRecordsLoop t
        (groupFold (fun p => anomalyCategory p.2) (fun _ => true) (posPairs txs) []))) := by
  unfold detect_anomalies
  rw [anomalyGroupsLoop_eq txs h []]

theorem filterMap_congr_of_mem {α β : Type} {f g : α → Option β} :
    ∀ {l : List α}, (∀ a ∈ l, f a = g a) → l.filterMap f = l.filterMap g
  | [], _ => rfl
  | a :: l, h => by
    rw [List.filterMap_cons, List.filterMap_cons, h a (List.mem_cons_self a l),
      filterMap_congr_of_mem (fun b hb => h b (List.mem_cons_of_mem a hb))]

theorem filter_sub_filter {α : Type} (p q : α → Bool) (l : List α)
    (h : ∀ a, p a = true → q a = true) : (l.filter q).filter p = l.filter p := by
  induction l with
  | nil => rfl
  | cons a rest ih =>
    by_cases hpa : p a = true
    · have hqa := h a hpa
      simp [List.filter_cons, hpa, hqa, ih]
    · by_cases hqa : q a = true <;> simp [List.filter_cons, hpa, hqa, ih]

theorem posPairs_mem_pos {txs : List Tx} {p : ℚ × Tx} (hp : p ∈ posPairs txs) : 0 < p.1 := by
  obtain ⟨tx, _, htx⟩ := List.mem_filterMap.mp hp
  revert htx
  cases parseAmount tx.amount with
  | none => intro h; cases h
  | some b =>
    by_cases hb : 0 < b
    · intro h
      simp only [if_pos hb, Option.some.injEq] at h
      rw [← h]
      exact hb
    · intro h
      simp [if_neg hb] at h

theorem anomalyRecordsLoop_perm (t : ℚ) :
    ∀ (ks : List String) (pos : List (ℚ × Tx)),
      ks.Nodup →
      (∀ p ∈ pos, 0 < p.1) →
      (∀ p ∈ pos, anomalyCategory p.2 ∈ ks) →
      (∀ k ∈ ks, ∃ p ∈ pos, anomalyCategory p.2 = k) →
      (anomalyRecordsLoop t
        (ks.map (fun k => (k, pos.filter (fun p => anomalyCategory p.2 == k))))).Perm
        (pos.filterMap (anomFlagWith t pos))
  | [], pos, _, _, hcov, _ => by
    have hpos0 : pos = [] := by
      rw [List.eq_nil_iff_forall_not_mem]
      intro p hp
      exact List.not_mem_nil _ (hcov p hp)
    rw [hpos0]
    exact List.Perm.refl _
  | k :: ks', pos, hnd, hpos, hcov, hmem => by
    obtain ⟨hknotin, hnd'⟩ := List.nodup_cons.mp hnd
    have hitems : ∀ k2 : String,
        pos.filter (fun p => anomalyCategory p.2 == k2)
          = pos.filter (fun p => anomalyCategory p.2 == k2) := fun _ => rfl
    obtain ⟨p0, hp0pos, hp0cat⟩ := hmem k (List.mem_cons_self _ _)
    have hp0items : p0 ∈ pos.filter (fun p => anomalyCategory p.2 == k) := by
      rw [List.mem_filter]
      exact ⟨hp0pos, by simpa using hp0cat⟩
    have hitemsne : pos.filter (fun p => anomalyCategory p.2 == k) ≠ [] :=
      List.ne_nil_of_mem hp0items
    have hitemspos : ∀ a ∈ (pos.filter (fun p => anomalyCategory p.2 == k)).map Prod.fst,
        0 < a := by
      intro a ha
      obtain ⟨p, hp, hpa⟩ := List.mem_map.mp ha
      rw [← hpa]
      exact hpos p (List.mem_filter.mp hp).1
    have hmapne : (pos.filter (fun p => anomalyCategory p.2 == k)).map Prod.fst ≠ [] := by
      intro h0
      apply hitemsne
      have hlen := congrArg List.length h0
      rw [List.length_map] at hlen
      exact List.length_eq_zero.mp hlen
    have hsumpos : 0 < pySum ((pos.filter (fun p => anomalyCategory p.2 == k)).map Prod.fst) :=
      pySum_pos hitemspos hmapne
    have hlenpos : (0 : ℚ) < ((pos.filter (fun p => anomalyCategory p.2 == k)).length : ℚ) := by
      have h1 : 0 < (pos.filter (fun p => anomalyCategory p.2 == k)).length :=
        List.length_pos.mpr hitemsne
      exact_mod_cast h1
    have havg : 0 < pySum ((pos.filter (fun p => anomalyCategory p.2 == k)).map Prod.fst)
        / ((pos.filter (fun p => anomalyCategory p.2 == k)).length : ℚ) :=
      div_pos hsumpos hlenpos
    have hloopstep : anomalyRecordsLoop t
        ((k :: ks').map (fun k2 => (k2, pos.filter (fun p => anomalyCategory p.2 == k2))))
        = (pos.filter (fun p => anomalyCategory p.2 == k)).filterMap
            (fun p => if t * (pySum ((pos.filter (fun p => anomalyCategory p.2 == k)).map Prod.fst)
                / ((pos.filter (fun p => anomalyCategory p.2 == k)).length : ℚ)) < p.1
              then some (mkAnomaly p.2 p.1
                (pySum ((pos.filter (fun p => anomalyCategory p.2 == k)).map Prod.fst)
                  / ((pos.filter (fun p => anomalyCategory p.2 == k)).length : ℚ)) k)
              else none)
          ++ anomalyRecordsLoop t
            (ks'.map (fun k2 => (k2, pos.filter (fun p => anomalyCategory p.2 == k2)))) := by
      rw [List.map_cons]
      simp only [anomalyRecordsLoop]
      rw [if_neg (not_le.mpr havg)]
    have hhead : (pos.filter (fun p => anomalyCategory p.2 == k)).filterMap
        (fun p => if t * (pySum ((pos.filter (fun p => anomalyCategory p.2 == k)).map Prod.fst)
            / ((pos.filter (fun p => anomalyCategory p.2 == k)).length : ℚ)) < p.1
          then some (mkAnomaly p.2 p.1
            (pySum ((pos.filter (fun p => anomalyCategory p.2 == k)).map Prod.fst)
              / ((pos.filter (fun p => anomalyCategory p.2 == k)).length : ℚ)) k)
          else none)
        = (pos.filter (fun p => anomalyCategory p.2 == k)).filterMap (anomFlagWith t pos) := by
      apply filterMap_congr_of_mem
      intro p hp
      have hcp : anomalyCategory p.2 = k := by
        have h2 := (List.mem_filter.mp hp).2
        simpa using h2
      unfold anomFlagWith
      rw [hcp]
    have htailmap : ks'.map (fun k2 => (k2, pos.filter (fun p => anomalyCategory p.2 == k2)))
        = ks'.map (fun k2 => (k2,
            (pos.filter (fun p => !(anomalyCategory p.2 == k))).filter
              (fun p => anomalyCategory p.2 == k2))) := by
      apply List.map_congr_left
      intro k2 hk2
      have hkk2 : k2 ≠ k := fun he => hknotin (he ▸ hk2)
      congr 1
      refine (filter_sub_filter _ _ pos ?_).symm
      intro p hb
      have hceq : anomalyCategory p.2 = k2 := by simpa using hb
      simp only [Bool.not_eq_true', beq_eq_false_iff_ne, ne_eq, hceq]
      exact hkk2
    have hpos2 : ∀ p ∈ pos.filter (fun p => !(anomalyCategory p.2 == k)), 0 < p.1 :=
      fun p hp => hpos p (List.mem_filter.mp hp).1
    have hcov2 : ∀ p ∈ pos.filter (fun p => !(anomalyCategory p.2 == k)),
        anomalyCategory p.2 ∈ ks' := by
      intro p hp
      obtain ⟨hppos, hpk⟩ := List.mem_filter.mp hp
      have hne : anomalyCategory p.2 ≠ k := by simpa using hpk
      rcases List.mem_cons.mp (hcov p hppos) with h | h
      · exact absurd h hne
      · exact h
    have hmem2 : ∀ k2 ∈ ks', ∃ p ∈ pos.filter (fun p => !(anomalyCategory p.2 == k)),
        anomalyCategory p.2 = k2 := by
      intro k2 hk2
      obtain ⟨p, hppos, hpcat⟩ := hmem k2 (List.mem_cons_of_mem k hk2)
      have hkk2 : k2 ≠ k := fun he => hknotin (he ▸ hk2)
      refine ⟨p, ?_, hpcat⟩
      rw [List.mem_filter]
      refine ⟨hppos, ?_⟩
      simp only [hpcat, Bool.not_eq_true', beq_eq_false_iff_ne, ne_eq]
      exact hkk2
    have ihperm := anomalyRecordsLoop_perm t ks'
      (pos.filter (fun p => !(anomalyCategory p.2 == k))) hnd' hpos2 hcov2 hmem2
    have hflageq : (pos.filter (fun p => !(anomalyCategory p.2 == k))).filterMap
        (anomFlagWith t (pos.filter (fun p => !(anomalyCategory p.2 == k))))
        = (pos.filter (fun p => !(anomalyCategory p.2 == k))).filterMap (anomFlagWith t pos) := by
      apply filterMap_congr_of_mem
      intro p hp
      have hcpk : anomalyCategory p.2 ≠ k := by
        have := (List.mem_filter.mp hp).2
        simpa using this
      have hfilter : (pos.filter (fun p2 => !(anomalyCategory p2.2 == k))).filter
          (fun p2 => anomalyCategory p2.2 == anomalyCategory p.2)
          = pos.filter (fun p2 => anomalyCategory p2.2 == anomalyCategory p.2) := by
        refine filter_sub_filter _ _ pos ?_
        intro q hb
        have hceq : anomalyCategory q.2 = anomalyCategory p.2 := by simpa using hb
        simp only [Bool.not_eq_true', beq_eq_false_iff_ne, ne_eq, hceq]
        exact hcpk
      simp only [anomFlagWith]
      rw [hfilter]
    rw [hloopstep, hhead, htailmap]
    refine List.Perm.trans (List.Perm.append_left _ (ihperm.trans (by rw [hflageq]))) ?_
    rw [← List.filterMap_append]
    exact List.Perm.filterMap _ (List.filter_append_perm _ pos)

/-- C3: with a successful run, the anomaly list is exactly one record per
positive-amount transaction whose amount strictly exceeds `threshold` times
the arithmetic mean of the positive amounts of its normalised category;
non-positive amounts are never flagged and are excluded from grouping and
from the mean; the declared default threshold is 2.0. -/
theorem c3_anomaly_flags (txs : List Tx) (t : ℚ) (out : List AnomalyRec)
    (_hthreshold : 1 ≤ t)
    (hout : detect_anomalies txs t = Except.ok out) :
    out.Perm (txs.filterMap (anomalySpec txs t)) ∧
    detect_anomalies_default txs = detect_anomalies txs 2 := by
  have h : allParse txs := detect_anomalies_ok_allParse hout
  refine ⟨?_, rfl⟩
  rw [detect_anomalies_eq txs t h] at hout
  have hout' := Except.ok.inj hout
  rw [← hout']
  refine (pySortDesc_perm _ _).trans ?_
  rw [groupFold_characterisation]
  have hfilt : ((posPairs txs).map (fun p => anomalyCategory p.2)).filter (fun _ => true)
      = (posPairs txs).map (fun p => anomalyCategory p.2) := List.filter_true _
  rw [hfilt]
  have hperm := anomalyRecordsLoop_perm t
    (firstKeys ((posPairs txs).map (fun p => anomalyCategory p.2))) (posPairs txs)
    (nodup_firstKeys _)
    (fun p hp => posPairs_mem_pos hp)
    (fun p hp => mem_firstKeys.mpr (List.mem_map_of_mem _ hp))
    (fun k hk => by
      obtain ⟨p, hp, hpk⟩ := List.mem_map.mp (mem_firstKeys.mp hk)
      exact ⟨p, hp, hpk⟩)
  refine hperm.trans ?_
  have hflag : ∀ tx : Tx,
      (match parseAmount tx.amount with
        | some a => if 0 < a then some (a, tx) else none
        | none => none).bind (anomFlagWith t (posPairs txs)) = anomalySpec txs t tx := by
    intro tx
    cases hpa : parseAmount tx.amount with
    | none => simp [anomalySpec, hpa]
    | some a =>
      by_cases hap : 0 < a
      · simp only [anomalySpec, hpa, if_pos hap, Option.some_bind]
        rfl
      · simp [anomalySpec, hpa, hap]
  rw [show (posPairs txs).filterMap (anomFlagWith t (posPairs txs))
      = txs.filterMap (anomalySpec txs t) from ?_]
  · unfold posPairs
    rw [List.filterMap_filterMap]
    exact filterMap_congr_of_mem (fun tx _ => hflag tx)


/-! ### Claim theorems: C1, C2, C4, C5, C6, C9 -/

/-- C1 (amended): `calculate_stats` never raises — a record whose amount is
unparsable is skipped, leaving every accumulator unchanged; the two
detectors complete without raising whenever every record's amount parses
(an unparsable amount raises out of them, and a parsable record with a
missing date still contributes to sums — see the counterexample). -/
theorem c1_malformed_records :
    (∀ (acc : StatsAcc) (m : Tx), parseAmount m.amount = none → statsStep acc m = acc) ∧
    (∀ (txs : List Tx) (t : ℚ), allParse txs →
      (detect_recurring_transactions txs).isOk = true ∧
      (detect_anomalies txs t).isOk = true) := by
  constructor
  · intro acc m hm
    unfold statsStep
    rw [hm]
  · intro txs t h
    constructor
    · rw [detect_recurring_eq txs h]
      rfl
    · rw [detect_anomalies_eq txs t h]
      rfl

/-- C2: a merchant group appears in the output of
`detect_recurring_transactions` (as a record whose merchant display name
normalises to the group key) iff the key is non-empty, its occurrence count
is at least 2, its transactions span at least 2 distinct calendar `YYYY-MM`
buckets (first 7 characters of the date string), and at least one grouped
transaction has a positive amount.  In particular a merchant occurring once,
or 3 times within a single calendar month, is never recurring. -/
theorem c2_recurring_group_membership (txs : List Tx) (out : List RecurringRec)
    (hout : detect_recurring_transactions txs = Except.ok out)
    (k : String) :
    (∃ r ∈ out, merchantKeyOf r.merchant = k) ↔
      (k ≠ "" ∧ 2 ≤ (groupOf txs k).length ∧ 2 ≤ distinctMonthCount (groupOf txs k) ∧
        ∃ tx ∈ groupOf txs k, 0 < amountOf tx) := by
  constructor
  · rintro ⟨r, hr, hrk⟩
    obtain ⟨k2, hk2ne, hrk2, hall, t0, grest, hg, hlen, hmon, hpos, hrec⟩ :=
      mem_recurring_out hout hr
    rw [hrk] at hrk2
    subst hrk2
    refine ⟨hk2ne, hlen, ?_, (posOf_ne_nil_iff hall).mp hpos⟩
    rw [← monthsOf_length_eq]
    exact hmon
  · rintro ⟨hkne, hlen, hmon, hex⟩
    refine recurring_out_of_group hout hkne hlen ?_ hex
    rw [monthsOf_length_eq]
    exact hmon

/-- C4: an emitted recurring record has `is_subscription = true` iff the
maximum absolute deviation of the group's positive amounts from their
average, divided by that average, is strictly below 0.05. -/
theorem c4_subscription_flag (txs : List Tx) (out : List RecurringRec)
    (hout : detect_recurring_transactions txs = Except.ok out) :
    ∀ r ∈ out, (r.is_subscription = true ↔
      relDev (posOf (groupOf txs (merchantKeyOf r.merchant))) < 1/20) := by
  intro r hr
  obtain ⟨k, hkne, hrk, hall, t0, grest, hg, hlen, hmon, hpos, hrec⟩ := mem_recurring_out hout hr
  rw [hrk]
  have hposmem : ∀ a ∈ posOf (groupOf txs k), 0 < a := fun a ha => posOf_mem_pos ha
  have havg : 0 < pyAvg (posOf (groupOf txs k)) := pyAvg_pos hposmem hpos
  have hsub : (mkRecurring k (groupOf txs k) t0 (posOf (groupOf txs k))).is_subscription
      = decide (relDev (posOf (groupOf txs k)) < 1/20) := by
    simp only [mkRecurring]
    rw [if_neg (show ¬(pySum (posOf (groupOf txs k)) / (((posOf (groupOf txs k)).length : ℕ) : ℚ)
      = 0) from (ne_of_gt havg))]
    rfl
  rw [hrec, hsub]
  exact decide_eq_true_iff

/-- C5 (amended): the output of `detect_recurring_transactions` is ordered
descending by each record's `total` field, which is the rounded sum of the
group's positive amounts only (credits and refunds are excluded from the
sort key — see the counterexample for the claim's "signed total" reading). -/
theorem c5_sorted_by_positive_total (txs : List Tx) (out : List RecurringRec)
    (hout : detect_recurring_transactions txs = Except.ok out) :
    out.Pairwise (fun a b => b.total ≤ a.total) := by
  unfold detect_recurring_transactions at hout
  cases hloop : detectRecurringLoop (groupFold txKey (fun k => decide (k ≠ "")) txs []) with
  | error e =>
    rw [hloop] at hout
    exact Except.noConfusion (hout : Except.error e = Except.ok out)
  | ok rec =>
    rw [hloop] at hout
    have h2 : Except.ok (pySortDesc RecurringRec.total rec) = Except.ok out := hout
    rw [← Except.ok.inj h2]
    exact pySortDesc_sorted RecurringRec.total rec

/-! ### The statistics pass, characterised -/

theorem foldl_statsStep_total_spent (txs : List Tx) :
    ∀ acc : StatsAcc, (txs.foldl statsStep acc).total_spent = acc.total_spent + sumPos txs := by
  induction txs with
  | nil => intro acc; simp [sumPos, posOf, pySum]
  | cons tx rest ih =>
    intro acc
    rw [List.foldl_cons, ih]
    cases hpa : parseAmount tx.amount with
    | none =>
      have hstep : statsStep acc tx = acc := by
        unfold statsStep
        rw [hpa]
      have hsum : sumPos (tx :: rest) = sumPos rest := by
        unfold sumPos posOf
        simp [List.filterMap_cons, hpa]
      rw [hstep, hsum]
    | some a =>
      by_cases hap : 0 < a
      · have hstep : (statsStep acc tx).total_spent = acc.total_spent + a := by
          simp [statsStep, hpa, hap, apply_ite StatsAcc.total_spent]
        have hsum : sumPos (tx :: rest) = a + sumPos rest := by
          unfold sumPos posOf pySum
          simp [List.filterMap_cons, hpa, hap]
        rw [hstep, hsum]
        ring
      · have hstep : (statsStep acc tx).total_spent = acc.total_spent := by
          simp [statsStep, hpa, hap, apply_ite StatsAcc.total_spent]
        have hsum : sumPos (tx :: rest) = sumPos rest := by
          unfold sumPos posOf
          simp [List.filterMap_cons, hpa, hap]
        rw [hstep, hsum]

theorem foldl_statsStep_total_income (txs : List Tx) :
    ∀ acc : StatsAcc, (txs.foldl statsStep acc).total_income = acc.total_income + sumNegAbs txs := by
  induction txs with
  | nil => intro acc; simp [sumNegAbs, pySum]
  | cons tx rest ih =>
    intro acc
    rw [List.foldl_cons, ih]
    cases hpa : parseAmount tx.amount with
    | none =>
      have hstep : statsStep acc tx = acc := by
        unfold statsStep
        rw [hpa]
      have hsum : sumNegAbs (tx :: rest) = sumNegAbs rest := by
        unfold sumNegAbs
        simp [List.filterMap_cons, hpa]
      rw [hstep, hsum]
    | some a =>
      by_cases hap : 0 < a
      · have hstep : (statsStep acc tx).total_income = acc.total_income := by
          simp [statsStep, hpa, hap, apply_ite StatsAcc.total_income]
        have hsum : sumNegAbs (tx :: rest) = sumNegAbs rest := by
          unfold sumNegAbs
          simp [List.filterMap_cons, hpa, hap]
        rw [hstep, hsum]
      · have hstep : (statsStep acc tx).total_income = acc.total_income + |a| := by
          simp [statsStep, hpa, hap, apply_ite StatsAcc.total_income]
        have hsum : sumNegAbs (tx :: rest) = |a| + sumNegAbs rest := by
          unfold sumNegAbs pySum
          simp [List.filterMap_cons, hpa, hap]
        rw [hstep, hsum]
        ring

theorem bumpVal_keys : ∀ (m : List (String × ℚ)) (k : String) (v : ℚ),
    (bumpVal m k v).map Prod.fst = insertNew (m.map Prod.fst) k
  | [], k, v => by simp [bumpVal, insertNew]
  | (k2, v2) :: rest, k, v => by
    by_cases hk : k2 = k
    · subst hk
      have hmem : k2 ∈ ((k2, v2) :: rest).map Prod.fst := by simp
      simp [bumpVal, insertNew, hmem]
    · simp only [bumpVal, if_neg hk, List.map_cons]
      rw [bumpVal_keys rest k v]
      unfold insertNew
      by_cases hmem : k ∈ rest.map Prod.fst
      · have h2 : k ∈ k2 :: rest.map Prod.fst := List.mem_cons_of_mem _ hmem
        rw [if_pos hmem, if_pos h2]
      · have hn : k ∉ k2 :: rest.map Prod.fst := by
          intro hc
          rcases List.mem_cons.mp hc with h | h
          · exact hk h.symm
          · exact hmem h
        rw [if_neg hmem, if_neg hn]
        rfl

theorem statsStep_daily_none (acc : StatsAcc) (tx : Tx)
    (hpa : parseAmount tx.amount = none) :
    (statsStep acc tx).daily_spending = acc.daily_spending := by
  unfold statsStep
  rw [hpa]

theorem statsStep_daily_some (acc : StatsAcc) (tx : Tx) (a : ℚ)
    (hpa : parseAmount tx.amount = some a) :
    (statsStep acc tx).daily_spending =
      if tx.date = "" then acc.daily_spending
      else bumpVal acc.daily_spending tx.date a := by
  by_cases hd : tx.date = "" <;>
    simp [statsStep, hpa, hd, apply_ite StatsAcc.daily_spending]

theorem foldl_statsStep_daily_keys (txs : List Tx) :
    ∀ acc : StatsAcc, ((txs.foldl statsStep acc).daily_spending).map Prod.fst
      = (activeDates txs).foldl insertNew (acc.daily_spending.map Prod.fst) := by
  induction txs with
  | nil => intro acc; simp [activeDates]
  | cons tx rest ih =>
    intro acc
    rw [List.foldl_cons, ih]
    cases hpa : parseAmount tx.amount with
    | none =>
      have hstep : statsStep acc tx = acc := by
        unfold statsStep
        rw [hpa]
      have hact : activeDates (tx :: rest) = activeDates rest := by
        unfold activeDates
        simp [List.filter_cons, hpa]
      rw [hstep, hact]
    | some a =>
      by_cases hd : tx.date = ""
      · have hstep : (statsStep acc tx).daily_spending = acc.daily_spending := by
          rw [statsStep_daily_some acc tx a hpa, if_pos hd]
        have hact : activeDates (tx :: rest) = activeDates rest := by
          unfold activeDates
          simp [List.filter_cons, hpa, hd]
        rw [hstep, hact]
      · have hstep : (statsStep acc tx).daily_spending = bumpVal acc.daily_spending tx.date a := by
          rw [statsStep_daily_some acc tx a hpa, if_neg hd]
        have hact : activeDates (tx :: rest) = tx.date :: activeDates rest := by
          unfold activeDates
          simp [List.filter_cons, hpa, hd]
        rw [hstep, hact, List.foldl_cons, bumpVal_keys]

theorem foldl_statsStep_daily_length (txs : List Tx) :
    ((txs.foldl statsStep emptyAcc).daily_spending).length = (activeDates txs).toFinset.card := by
  have h1 := foldl_statsStep_daily_keys txs emptyAcc
  have h2 : ((txs.foldl statsStep emptyAcc).daily_spending).length
      = (((txs.foldl statsStep emptyAcc).daily_spending).map Prod.fst).length :=
    (List.length_map _ _).symm
  rw [h2, h1]
  exact length_foldl_insertNew_eq_card _

/-- `calculate_stats` on a non-empty batch, with the let-bindings spelled
out. -/
theorem calculate_stats_eq (txs : List Tx) (hne : txs ≠ []) :
    calculate_stats txs = some
      { total_spent := round2 (txs.foldl statsStep emptyAcc).total_spent
        total_income := round2 (txs.foldl statsStep emptyAcc).total_income
        net_cash_flow := round2 ((txs.foldl statsStep emptyAcc).total_income
          - (txs.foldl statsStep emptyAcc).total_spent)
        transaction_count := txs.length
        avg_daily_spend := round2 ((txs.foldl statsStep emptyAcc).total_spent
          / ((max (txs.foldl statsStep emptyAcc).daily_spending.length 1 : ℕ) : ℚ))
        avg_transaction := round2 ((txs.foldl statsStep emptyAcc).total_spent
          / ((max txs.length 1 : ℕ) : ℚ))
        category_breakdown := (pySortDesc Prod.snd
          (txs.foldl statsStep emptyAcc).categories).map (fun p => (p.1, round2 p.2))
        top_category := (pySortDesc Prod.snd
          (txs.foldl statsStep emptyAcc).categories).head?.map Prod.fst
        top_category_amount :=
          match pySortDesc Prod.snd (txs.foldl statsStep emptyAcc).categories with
          | [] => 0
          | c :: _ => round2 c.2
        top_merchants := ((pySortDesc (fun m => m.2.1)
          (txs.foldl statsStep emptyAcc).merchants).take 5).map
            (fun m => ⟨m.1, m.2.1, round2 m.2.2⟩)
        biggest_expense_day := maxKeyByVal (txs.foldl statsStep emptyAcc).daily_spending } := by
  unfold calculate_stats
  rw [if_neg hne]

/-- C7 (amended): on any computed snapshot, `avg_daily_spend` is the raw
total spent divided by the number of distinct dates with activity (zero
replaced by 1), rounded to 2 decimals at the boundary, and
`avg_transaction` is the raw total spent divided by the batch length with
the same guard and rounding. -/
theorem c7_average_fields (txs : List Tx) (s : Stats) (hs : calculate_stats txs = some s) :
    s.avg_daily_spend
      = round2 (sumPos txs / ((max (activeDates txs).toFinset.card 1 : ℕ) : ℚ)) ∧
    s.avg_transaction = round2 (sumPos txs / ((max txs.length 1 : ℕ) : ℚ)) := by
  have hne : txs ≠ [] := by
    intro h0
    rw [h0] at hs
    cases hs
  rw [calculate_stats_eq txs hne] at hs
  have hs' := (Option.some.inj hs).symm
  rw [hs']
  have htot : (txs.foldl statsStep emptyAcc).total_spent = sumPos txs := by
    rw [foldl_statsStep_total_spent]
    show (0 : ℚ) + sumPos txs = sumPos txs
    ring
  constructor
  · show round2 ((txs.foldl statsStep emptyAcc).total_spent
      / ((max (txs.foldl statsStep emptyAcc).daily_spending.length 1 : ℕ) : ℚ)) = _
    rw [htot, foldl_statsStep_daily_length]
  · show round2 ((txs.foldl statsStep emptyAcc).total_spent
      / ((max txs.length 1 : ℕ) : ℚ)) = _
    rw [htot]

/-- C8 (amended): `total_spent` is the sum of the positive amounts,
`total_income` the sum of the absolute values of the non-positive amounts,
and `net_cash_flow` their raw difference — each rounded to 2 decimals at
the snapshot boundary. -/
theorem c8_total_fields (txs : List Tx) (s : Stats) (hs : calculate_stats txs = some s) :
    s.total_spent = round2 (sumPos txs) ∧
    s.total_income = round2 (sumNegAbs txs) ∧
    s.net_cash_flow = round2 (sumNegAbs txs - sumPos txs) := by
  have hne : txs ≠ [] := by
    intro h0
    rw [h0] at hs
    cases hs
  rw [calculate_stats_eq txs hne] at hs
  have hs' := (Option.some.inj hs).symm
  rw [hs']
  have htot : (txs.foldl statsStep emptyAcc).total_spent = sumPos txs := by
    rw [foldl_statsStep_total_spent]
    show (0 : ℚ) + sumPos txs = sumPos txs
    ring
  have hinc : (txs.foldl statsStep emptyAcc).total_income = sumNegAbs txs := by
    rw [foldl_statsStep_total_income]
    show (0 : ℚ) + sumNegAbs txs = sumNegAbs txs
    ring
  refine ⟨?_, ?_, ?_⟩
  · show round2 (txs.foldl statsStep emptyAcc).total_spent = _
    rw [htot]
  · show round2 (txs.foldl statsStep emptyAcc).total_income = _
    rw [hinc]
  · show round2 ((txs.foldl statsStep emptyAcc).total_income
      - (txs.foldl statsStep emptyAcc).total_spent) = _
    rw [htot, hinc]

/-- C10: a non-empty batch whose amounts all fail to parse still yields a
snapshot (not the no-data signal): zero totals, empty category breakdown,
no top category, no biggest-expense day, and `transaction_count` equal to
the full batch length. -/
theorem c10_all_malformed (txs : List Tx) (hne : txs ≠ [])
    (hbad : ∀ tx ∈ txs, parseAmount tx.amount = none) :
    (calculate_stats txs).map Stats.total_spent = some 0 ∧
    (calculate_stats txs).map Stats.total_income = some 0 ∧
    (calculate_stats txs).map Stats.category_breakdown = some [] ∧
    (calculate_stats txs).map Stats.top_category = some none ∧
    (calculate_stats txs).map Stats.biggest_expense_day = some none ∧
    (calculate_stats txs).map Stats.transaction_count = some txs.length := by
  have hacc : txs.foldl statsStep emptyAcc = emptyAcc := by
    have hgen : ∀ (l : List Tx), (∀ tx ∈ l, parseAmount tx.amount = none) →
        ∀ acc : StatsAcc, l.foldl statsStep acc = acc := by
      intro l
      induction l with
      | nil => intro _ acc; rfl
      | cons tx rest ih =>
        intro hl acc
        rw [List.foldl_cons]
        have hstep : statsStep acc tx = acc := by
          unfold statsStep
          rw [hl tx (List.mem_cons_self _ _)]
        rw [hstep]
        exact ih (fun t2 ht => hl t2 (List.mem_cons_of_mem _ ht)) acc
    exact hgen txs hbad emptyAcc
  rw [calculate_stats_eq txs hne, hacc]
  have hr0 : round2 0 = 0 := by
    unfold round2
    norm_num
  refine ⟨?_, ?_, ?_, ?_, ?_, ?_⟩ <;> simp [Option.map_some, emptyAcc, hr0, pySortDesc,
    maxKeyByVal]

/-- C6: the empty batch yields the explicit no-data signal from
`calculate_stats` and empty sequences from both detectors. -/
theorem c6_empty_batch :
    calculate_stats ([] : List Tx) = none ∧
    detect_recurring_transactions [] = Except.ok [] ∧
    ∀ t : ℚ, detect_anomalies [] t = Except.ok [] :=
  ⟨rfl, rfl, fun _ => rfl⟩

/-- C9: the four category-resolution code paths — in `calculate_stats`,
`detect_recurring_transactions`, `detect_anomalies` and `_tx_category` —
compute the same category string, namely the one described by the claim
(`specCategory`). -/
theorem c9_category_paths_agree (tx : Tx) :
    statsCategory tx = specCategory tx ∧ recurringCategory tx = specCategory tx ∧
    anomalyCategory tx = specCategory tx ∧ tx_category tx = specCategory tx := by
  have h : statsCategory tx = specCategory tx := by
    unfold statsCategory specCategory
    cases hp : pfcPrimary tx with
    | some p => rfl
    | none =>
      cases hc : tx.category with
      | cnone => rfl
      | cstr s =>
        by_cases hs : s = ""
        · subst hs
          rfl
        · simp [catTruthy, catStr, hs]
      | clist l =>
        cases l with
        | nil => rfl
        | cons c cs => rfl
  exact ⟨h, h, h, h⟩

/-! ### Counterexamples and witnesses -/

set_option maxRecDepth 3000

/-- C1 counterexample: an unparsable amount raises out of
`detect_anomalies` (and out of `detect_recurring_transactions` when its
group qualifies), and a parsable record with a missing date contributes its
amount to the sums rather than zero. -/
theorem c1_counterexample :
    detect_anomalies [txBadAmt] 2 = Except.error () ∧
    detect_recurring_transactions exC1err = Except.error () ∧
    (calculate_stats [txNoDate]).map Stats.total_spent = some 50 := by
  with_unfolding_all decide

/-- C1 witness: the amended statement at concrete inputs. -/
theorem c1_witness :
    statsStep emptyAcc txBadAmt = emptyAcc ∧
    (detect_recurring_transactions exParseOk).isOk = true ∧
    (detect_anomalies exParseOk 2).isOk = true :=
  ⟨c1_malformed_records.1 emptyAcc txBadAmt rfl,
   (c1_malformed_records.2 exParseOk 2 (by with_unfolding_all decide)).1,
   (c1_malformed_records.2 exParseOk 2 (by with_unfolding_all decide)).2⟩

/-- C2 witness: the "amazon" group of `exC2` (two store numbers across two
months) satisfies the membership equivalence. -/
theorem c2_witness :
    (∃ r ∈ exC2out, merchantKeyOf r.merchant = "amazon") ↔
      ("amazon" ≠ "" ∧ 2 ≤ (groupOf exC2 "amazon").length ∧
        2 ≤ distinctMonthCount (groupOf exC2 "amazon") ∧
        ∃ tx ∈ groupOf exC2 "amazon", 0 < amountOf tx) :=
  c2_recurring_group_membership exC2 exC2out (by with_unfolding_all decide) "amazon"

/-- C3 witness: the one-outlier category of `exAnom` at threshold 1. -/
theorem c3_witness :
    exAnomOut.Perm (exAnom.filterMap (anomalySpec exAnom 1)) ∧
    detect_anomalies_default exAnom = detect_anomalies exAnom 2 :=
  c3_anomaly_flags exAnom 1 exAnomOut (by norm_num) (by with_unfolding_all decide)

/-- C4 witness: the fixed-price merchant of `exC4` is a subscription. -/
theorem c4_witness :
    exC4rec.is_subscription = true ↔
      relDev (posOf (groupOf exC4 (merchantKeyOf exC4rec.merchant))) < 1/20 :=
  c4_subscription_flag exC4 [exC4rec] (by with_unfolding_all decide)
    exC4rec (List.mem_singleton_self _)

/-- C5 counterexample: on `exC5` the output comes Alpha before Beta (by the
positive-only totals 200 and 100), while Alpha's signed total is strictly
below Beta's — so the output is not descending by signed group total. -/
theorem c5_counterexample :
    (detect_recurring_transactions exC5).map (fun l => l.map (fun r => (r.merchant, r.total)))
      = Except.ok [("Alpha", 200), ("Beta", 100)] ∧
    merchantKeyOf "Alpha" = "alpha" ∧ merchantKeyOf "Beta" = "beta" ∧
    groupSignedTotal exC5 "alpha" < groupSignedTotal exC5 "beta" := by
  with_unfolding_all decide

/-- C5 witness: the amended ordering on the output of `exC5`. -/
theorem c5_witness :
    List.Pairwise (fun a b : RecurringRec => b.total ≤ a.total) exC5out :=
  c5_sorted_by_positive_total exC5 exC5out (by with_unfolding_all decide)

/-- C7 counterexample: on `exC7` the snapshot's `avg_daily_spend` is the
rounded 0.37, not `total_spent / 3 = 11/30`. -/
theorem c7_counterexample :
    (calculate_stats exC7).map Stats.avg_daily_spend = some (37/100) ∧
    (calculate_stats exC7).map Stats.total_spent = some (11/10) ∧
    (activeDates exC7).toFinset.card = 3 ∧
    ¬((37 : ℚ)/100 = 11/10/3) := by
  with_unfolding_all decide

/-- C7 witness: the amended averages at a concrete snapshot. -/
theorem c7_witness :
    statsW7.avg_daily_spend
      = round2 (sumPos exW7 / ((max (activeDates exW7).toFinset.card 1 : ℕ) : ℚ)) ∧
    statsW7.avg_transaction = round2 (sumPos exW7 / ((max exW7.length 1 : ℕ) : ℚ)) :=
  c7_average_fields exW7 statsW7 (by with_unfolding_all decide)

/-- C8 counterexample: a 3-decimal amount makes the rounded `total_spent`
field differ from the exact sum of positive amounts. -/
theorem c8_counterexample :
    (calculate_stats exC8).map Stats.total_spent = some (11/100) ∧
    sumPos exC8 = 111/1000 ∧
    ¬((11 : ℚ)/100 = 111/1000) := by
  with_unfolding_all decide

/-- C8 witness: the amended totals at a concrete snapshot. -/
theorem c8_witness :
    statsW7.total_spent = round2 (sumPos exW7) ∧
    statsW7.total_income = round2 (sumNegAbs exW7) ∧
    statsW7.net_cash_flow = round2 (sumNegAbs exW7 - sumPos exW7) :=
  c8_total_fields exW7 statsW7 (by with_unfolding_all decide)

/-- C10 witness: the all-unparsable batch `exW10`. -/
theorem c10_witness :
    (calculate_stats exW10).map Stats.total_spent = some 0 ∧
    (calculate_stats exW10).map Stats.total_income = some 0 ∧
    (calculate_stats exW10).map Stats.category_breakdown = some [] ∧
    (calculate_stats exW10).map Stats.top_category = some none ∧
    (calculate_stats exW10).map Stats.biggest_expense_day = some none ∧
    (calculate_stats exW10).map Stats.transaction_count = some exW10.length :=
  c10_all_malformed exW10 (by with_unfolding_all decide) (by with_unfolding_all decide)

end Domus
